import Mathlib

/-!
Verification development for the simulation replay engine of the
COMP461-Fall-2025-AgriOS frontend.

The embedding covers:
* `src/app/simulation/actions.ts` (first iteration): the trajectory
  builder `parseJSONEvents` and the plain-text path of
  `fetchSimulationData`, including the regex field extraction
  (`robotId="..."`, `x=(\d+)`, `start=((\d+),(\d+))`, `map=((\d+)x(\d+))`),
  the per-agent path construction with dwell-frame insertion, and the
  synchronized frame construction.
* `src/components/simulation/simulation-player.tsx`: the interpolation
  function `interpolateRobots`, the playback handlers `handleSeek`,
  the playback effect baseline derivation, and the `animate` tick.

JS strings are modelled as `List Char` (scanning) and `String`
(identifiers); JS numbers are modelled as `ℚ` where fractional values can
arise (frame times, interpolated positions, playback clock) and as `ℕ`
where the source can only produce non-negative integers (`parseInt` of a
`\d+` capture).  The regex matchers are modelled with the leftmost-match
semantics of JavaScript `String.prototype.match`: the engine tries the
pattern at each start position from the left and advances one character
on failure.
-/

namespace AgriSim

/-! ## Field extraction (the regexes of actions.ts) -/

/-- Numeric value of a list of decimal digit characters, as computed by
`parseInt` on a `\d+` capture. -/
def digitsVal (l : List Char) : Nat :=
  l.foldl (fun n c => n * 10 + (c.toNat - 48)) 0

/-- Pattern `key"([^"]*)"` at the current position: the literal key
characters (ending in `="`), then a capture of non-quote characters,
then a closing quote. -/
def quotHere (key : List Char) (s : List Char) : Option (List Char) :=
  if key.isPrefixOf s then
    let tail := s.drop key.length
    let cap := tail.takeWhile (fun d => d ≠ '"')
    if cap.length < tail.length then some cap else none
  else none

/-- Leftmost match of `key"([^"]*)"` over the whole string: regex
`robotId="([^"]*)"` and `robotName="([^"]*)"` of actions.ts. -/
def quotAfter (key : List Char) : List Char → Option (List Char)
  | [] => none
  | c :: rest =>
    match quotHere key (c :: rest) with
    | some v => some v
    | none => quotAfter key rest

/-- Pattern `key(\d+)` at the current position (key ends in `=`). -/
def numHere (key : List Char) (s : List Char) : Option Nat :=
  if key.isPrefixOf s then
    let ds := (s.drop key.length).takeWhile Char.isDigit
    if ds = [] then none else some (digitsVal ds)
  else none

/-- Leftmost match of `key(\d+)`: regexes `x=(\d+)` and `y=(\d+)`. -/
def numAfter (key : List Char) : List Char → Option Nat
  | [] => none
  | c :: rest =>
    match numHere key (c :: rest) with
    | some v => some v
    | none => numAfter key rest

/-- Pattern `key(\d+)sep(\d+)cl` at the current position (key ends in
the opening parenthesis). -/
def tupHere (key : List Char) (sep cl : Char) (s : List Char) : Option (Nat × Nat) :=
  if key.isPrefixOf s then
    let t1 := s.drop key.length
    let d1 := t1.takeWhile Char.isDigit
    if d1 = [] then none else
      match t1.drop d1.length with
      | [] => none
      | c2 :: t3 =>
        if c2 = sep then
          let d2 := t3.takeWhile Char.isDigit
          if d2 = [] then none else
            match t3.drop d2.length with
            | [] => none
            | c4 :: _ => if c4 = cl then some (digitsVal d1, digitsVal d2) else none
        else none
  else none

/-- Leftmost match of a two-number tuple: regexes `start=\((\d+),(\d+)\)`
and `map=\((\d+)x(\d+)\)`. -/
def tupAfter (key : List Char) (sep cl : Char) : List Char → Option (Nat × Nat)
  | [] => none
  | c :: rest =>
    match tupHere key sep cl (c :: rest) with
    | some v => some v
    | none => tupAfter key sep cl rest

def robotIdKey : List Char := ['r', 'o', 'b', 'o', 't', 'I', 'd', '=', '"']
def robotNameKey : List Char := ['r', 'o', 'b', 'o', 't', 'N', 'a', 'm', 'e', '=', '"']
def startKey : List Char := ['s', 't', 'a', 'r', 't', '=', '(']
def mapKey : List Char := ['m', 'a', 'p', '=', '(']
def xKey : List Char := ['x', '=']
def yKey : List Char := ['y', '=']
def plannerMark : List Char := ['P', 'L', 'A', 'N', 'N', 'E', 'R', '_', 'S', 'T', 'A', 'R', 'T']
def moveMark : List Char := ['M', 'O', 'V', 'E', '_', 'E', 'X', 'E', 'C', 'U', 'T', 'E', 'D']
def droneChars : List Char := ['d', 'r', 'o', 'n', 'e']

/-- Substring test: JavaScript `String.prototype.includes`. -/
def containsSub (pat : List Char) : List Char → Bool
  | [] => pat.isEmpty
  | c :: rest => pat.isPrefixOf (c :: rest) || containsSub pat rest

/-! ## The trajectory builder (actions.ts, first iteration) -/

/-- The four fields a fully parseable PLANNER_START event carries
(actions.ts lines 144-155 / 292-303). -/
structure PlannerFields where
  robotId : String
  robotName : String
  startX : Nat
  startY : Nat
  mapW : Nat
  mapH : Nat
deriving DecidableEq, Repr

/-- All four regex matches of the PLANNER_START branch; `none` when any
required field is absent. -/
def extractPlanner (data : List Char) : Option PlannerFields :=
  match quotAfter robotIdKey data, quotAfter robotNameKey data,
      tupAfter startKey ',' ')' data, tupAfter mapKey 'x' ')' data with
  | some id, some nm, some (sx, sy), some (w, h) =>
    some ⟨id.asString, nm.asString, sx, sy, w, h⟩
  | _, _, _, _ => none

/-- The three regex matches of the MOVE_EXECUTED branch (actions.ts
lines 208-215 / 355-361); `none` when any required field is absent. -/
def extractMove (data : List Char) : Option (String × Nat × Nat) :=
  match quotAfter robotIdKey data, numAfter xKey data, numAfter yKey data with
  | some id, some x, some y => some (id.asString, x, y)
  | _, _, _ => none

/-- The per-robot record stored in `robotInfoMap`. -/
structure RobotInfo where
  name : String
  type : String
  startX : Nat
  startY : Nat
deriving DecidableEq, Repr

/-- `robotName.toLowerCase().includes("drone") ? "drone" : "rover"`. -/
def infoOf (pf : PlannerFields) : RobotInfo :=
  { name := pf.robotName
    type := if containsSub droneChars (pf.robotName.toList.map Char.toLower) then "drone" else "rover"
    startX := pf.startX
    startY := pf.startY }

/-- Insertion-ordered association list (JS `Map` keeps insertion order). -/
def findVal (k : String) : List (String × β) → Option β
  | [] => none
  | p :: rest => if p.1 = k then some p.2 else findVal k rest

def hasKey (l : List (String × β)) (k : String) : Bool :=
  (findVal k l).isSome

/-- State of the PLANNER_START discovery scan: `robotInfoMap` plus the
mutable `mapWidth` / `mapHeight`. -/
structure ScanInfo where
  infos : List (String × RobotInfo)
  mapW : Nat
  mapH : Nat

/-- One PLANNER_START discovery step (actions.ts lines 142-165 /
289-313): dims are updated by every fully parseable PLANNER_START, the
info record only if the id is not yet present. -/
def infoStep (isPS : α → Bool) (dat : α → List Char) (st : ScanInfo) (e : α) : ScanInfo :=
  if isPS e then
    match extractPlanner (dat e) with
    | some pf =>
      if hasKey st.infos pf.robotId then
        { st with mapW := pf.mapW, mapH := pf.mapH }
      else
        { infos := st.infos ++ [(pf.robotId, infoOf pf)], mapW := pf.mapW, mapH := pf.mapH }
    | none => st
  else st

def scanInfos (isPS : α → Bool) (dat : α → List Char) (events : List α) : ScanInfo :=
  events.foldl (infoStep isPS dat) ⟨[], 0, 0⟩

/-- A waypoint `{x, y}` of a robot path. -/
structure Pt where
  x : Nat
  y : Nat
deriving DecidableEq, Repr

/-- `TASK_DWELL_FRAMES` (actions.ts lines 174 / 321). -/
def DWELL : Nat := 15

/-- Append `DWELL` copies of the last point when the path is non-empty
(the dwell block of actions.ts lines 196-202 / 343-349 and the trailing
block of lines 225-232 / 372-379). -/
def addDwell (p : List Pt) : List Pt :=
  if p.isEmpty then p else p ++ List.replicate DWELL (p.getLastD ⟨0, 0⟩)

/-- Update the entry of one key of `robotPaths` in place. -/
def setPath (l : List (String × List Pt)) (k : String) (f : List Pt → List Pt) :
    List (String × List Pt) :=
  l.map (fun p => if p.1 = k then (p.1, f p.2) else p)

/-- State of the path-building scan: `robotPaths` and `robotTaskCount`. -/
structure ScanPaths where
  paths : List (String × List Pt)
  counts : String → Nat

/-- The PLANNER_START half of the path-building loop body (actions.ts
lines 186-205 / 333-352): matched only on `robotId`, bumps the task
counter and, from the second task on, appends the dwell run. -/
def psStep (isPS : α → Bool) (dat : α → List Char) (st : ScanPaths) (e : α) : ScanPaths :=
  if isPS e then
    match quotAfter robotIdKey (dat e) with
    | some idl =>
      let id := idl.asString
      let cnt := st.counts id
      let paths2 :=
        if cnt > 0 && hasKey st.paths id then setPath st.paths id addDwell else st.paths
      { paths := paths2, counts := fun k => if k = id then cnt + 1 else st.counts k }
    | none => st
  else st

/-- The MOVE_EXECUTED half of the path-building loop body (actions.ts
lines 207-221 / 354-368): with all three fields present, appends one
waypoint when the id has a path. -/
def mvStep (isMove : α → Bool) (dat : α → List Char) (st : ScanPaths) (e : α) : ScanPaths :=
  if isMove e then
    match extractMove (dat e) with
    | some (id, xv, yv) =>
      if hasKey st.paths id then
        { st with paths := setPath st.paths id (fun p => p ++ [⟨xv, yv⟩]) }
      else st
    | none => st
  else st

/-- One step of the path-building scan (actions.ts lines 183-222 /
330-369): the two halves are sequential `if`s, as in the source. -/
def pathStep (isPS isMove : α → Bool) (dat : α → List Char) (st : ScanPaths) (e : α) :
    ScanPaths :=
  mvStep isMove dat (psStep isPS dat st e) e

/-- Each robot's path is initialized with its start position
(actions.ts lines 176-178 / 323-325). -/
def initPaths (infos : List (String × RobotInfo)) : List (String × List Pt) :=
  infos.map (fun p => (p.1, [⟨p.2.startX, p.2.startY⟩]))

def scanPaths (isPS isMove : α → Bool) (dat : α → List Char)
    (infos : List (String × RobotInfo)) (events : List α) : List (String × List Pt) :=
  (events.foldl (pathStep isPS isMove dat) ⟨initPaths infos, fun _ => 0⟩).paths

/-- Trailing dwell run on every path (actions.ts lines 225-232 / 372-379). -/
def finalize (paths : List (String × List Pt)) : List (String × List Pt) :=
  paths.map (fun p => (p.1, addDwell p.2))

/-- `maxPathLength` (actions.ts lines 235-238 / 382-385). -/
def maxLen (paths : List (String × List Pt)) : Nat :=
  paths.foldl (fun m p => max m p.2.length) 0

/-- One agent entry of a frame (`SimulationRobot` of actions.ts). -/
structure SimulationRobot where
  id : String
  name : String
  type : String
  x : ℚ
  y : ℚ
deriving DecidableEq, Repr

instance : Inhabited SimulationRobot := ⟨⟨"", "", "", 0, 0⟩⟩

/-- One synchronized frame (`SimulationFrame` of actions.ts). -/
structure SimulationFrame where
  time : ℚ
  robots : List SimulationRobot
deriving DecidableEq, Repr

instance : Inhabited SimulationFrame := ⟨⟨0, []⟩⟩

/-- The terminal artifact (`SimulationData` of actions.ts). -/
structure SimulationData where
  mapId : String
  mapName : String
  frames : List SimulationFrame
deriving DecidableEq, Repr

/-- `frameInterval` (actions.ts lines 245 / 392). -/
def FRAME_INTERVAL : ℚ := 100

/-- The synchronized frame construction (actions.ts lines 248-270 /
395-417): frame `i` at time `i * 100` holds, for every agent in
insertion order, the waypoint at index `min i (len - 1)` of its path. -/
def mkFrames (infos : List (String × RobotInfo)) (paths : List (String × List Pt))
    (l : Nat) : List SimulationFrame :=
  (List.range l).map (fun (i : Nat) =>
    { time := (i : ℚ) * FRAME_INTERVAL
      robots := infos.map (fun p =>
        let path := (findVal p.1 paths).getD []
        let pos := path.getD (min i (path.length - 1)) ⟨0, 0⟩
        { id := p.1, name := p.2.name, type := p.2.type, x := (pos.x : ℚ), y := (pos.y : ℚ) }) })

/-- The shared body of `parseJSONEvents` and the plain-text path of
`fetchSimulationData` (first iteration of actions.ts); the two differ
only in how an event is recognized as PLANNER_START / MOVE_EXECUTED and
where its data string lives. -/
def buildCore (isPS isMove : α → Bool) (dat : α → List Char) (events : List α) :
    Option SimulationData :=
  let si := scanInfos isPS dat events
  if si.infos.isEmpty then none
  else
    let paths := finalize (scanPaths isPS isMove dat si.infos events)
    let l := maxLen paths
    if l = 0 then none
    else some
      { mapId := "current"
        mapName := "Pathfinding (" ++ toString si.mapW ++ "x" ++ toString si.mapH ++ ")"
        frames := mkFrames si.infos paths l }

/-- A structured event `{type, data}` of the backend JSON format. -/
structure Ev where
  type : String
  data : List Char
deriving DecidableEq, Repr

def evPS (e : Ev) : Bool := e.type == "PLANNER_START"

def evMove (e : Ev) : Bool := e.type == "MOVE_EXECUTED"

/-- `parseJSONEvents` (actions.ts lines 283-424, first iteration). -/
def parseJSONEvents (events : List Ev) : Option SimulationData :=
  buildCore evPS evMove Ev.data events

/-- JavaScript `String.prototype.trim`. -/
def trimChars (s : List Char) : List Char :=
  ((s.dropWhile Char.isWhitespace).reverse.dropWhile Char.isWhitespace).reverse

/-- JavaScript `String.prototype.split('\n')`: always at least one
piece. -/
def splitLines : List Char → List (List Char)
  | [] => [[]]
  | c :: rest =>
    if c = '\n' then [] :: splitLines rest
    else
      match splitLines rest with
      | l :: ls => (c :: l) :: ls
      | [] => [[c]]

/-- The plain-text path of `fetchSimulationData` (actions.ts lines
131-276, first iteration): trim, split into lines, recognize event kinds
by substring inclusion, then run the same builder. -/
def parseTextEvents (text : List Char) : Option SimulationData :=
  let lines := splitLines (trimChars text)
  if lines.isEmpty then none
  else buildCore (containsSub plannerMark) (containsSub moveMark) id lines

/-- Convenience projections used by the statements below. -/
def infosOf (events : List Ev) : List (String × RobotInfo) :=
  (scanInfos evPS Ev.data events).infos

def finalPaths (events : List Ev) : List (String × List Pt) :=
  finalize (scanPaths evPS evMove Ev.data (infosOf events) events)

/-! ## The playback engine (simulation-player.tsx) -/

/-- `maxTime = frames[frames.length - 1].time` (player line 36). -/
def maxTimeOf (frames : List SimulationFrame) : ℚ :=
  (frames.getLastD default).time

/-- The bracketing-frame search loop of `interpolateRobots` (player
lines 82-91): the first adjacent pair with
`frames[i].time <= time && frames[i+1].time >= time`. -/
def findBrk : List SimulationFrame → ℚ → Option (SimulationFrame × SimulationFrame)
  | f0 :: f1 :: rest, t =>
    if f0.time ≤ t ∧ t ≤ f1.time then some (f0, f1) else findBrk (f1 :: rest) t
  | _, _ => none

/-- The per-agent linear interpolation between two frames (player lines
93-106): factor `τ = (time - t0) / (t1 - t0)` when the denominator is
positive, `0` otherwise; positions interpolated, all other fields
spread from the earlier frame's robot. -/
def lerpRobots (beforeF afterF : SimulationFrame) (time : ℚ) : List SimulationRobot :=
  let total := afterF.time - beforeF.time
  let elapsed := time - beforeF.time
  let tau := if total > 0 then elapsed / total else 0
  (List.range beforeF.robots.length).map (fun k =>
    let robot := beforeF.robots.getD k default
    let afterR := afterF.robots.getD k default
    { robot with
        x := robot.x + (afterR.x - robot.x) * tau
        y := robot.y + (afterR.y - robot.y) * tau })

/-- `interpolateRobots` (player lines 73-107): clamp to the last frame
at or past `maxTime`, to the first frame at or below `0`, otherwise
interpolate within the bracketing pair (defaulting to the first two
frames when the search finds none). -/
def interpolateRobots (frames : List SimulationFrame) (time : ℚ) : List SimulationRobot :=
  if (frames.getLastD default).time ≤ time then (frames.getLastD default).robots
  else if time ≤ 0 then (frames.headD default).robots
  else
    let br :=
      match findBrk frames time with
      | some pr => pr
      | none => (frames.headD default, frames.getD 1 default)
    lerpRobots br.1 br.2 time

/-- The component state touched by the playback handlers: `isPlaying`,
`currentTime`, `speed` (React state) and `startTimeRef`. -/
structure PlayerState where
  isPlaying : Bool
  currentTime : ℚ
  speed : ℚ
  startTime : Option ℚ
deriving DecidableEq, Repr

/-- `handleSeek` (player lines 367-380): set `currentTime` to the raw
slider value and null the baseline; `isPlaying` and `speed` are not
touched (the remaining lines only redraw). -/
def handleSeek (s : PlayerState) (t : ℚ) : PlayerState :=
  { s with currentTime := t, startTime := none }

/-- The baseline derivation of the animation effect (player line 324):
when playing, `startTimeRef = now - currentTime / speed`. -/
def effectStart (s : PlayerState) (now : ℚ) : PlayerState :=
  if s.isPlaying then { s with startTime := some (now - s.currentTime / s.speed) } else s

/-- One `animate` tick (player lines 305-321).  The guard
`if (!startTimeRef.current)` (line 306) is a JavaScript *falsiness*
test: it treats a baseline of `0` the same as `null`, so the timestamp
is adopted as baseline when the stored baseline is absent *or zero*.
Then `elapsed = (timestamp - baseline) * speed`, clamped above by
`maxTime`; playing stops once the clamped value reaches `maxTime`. -/
def animate (maxT : ℚ) (s : PlayerState) (timestamp : ℚ) : PlayerState :=
  let base :=
    match s.startTime with
    | some b => if b = 0 then timestamp else b
    | none => timestamp
  let elapsed := (timestamp - base) * s.speed
  let newTime := min elapsed maxT
  { s with
      startTime := some base
      currentTime := newTime
      isPlaying := if maxT ≤ newTime then false else s.isPlaying }

/-! ## Helper lemmas about the association lists and the builder -/

lemma findVal_isSome_iff (k : String) (l : List (String × β)) :
    (findVal k l).isSome = true ↔ k ∈ l.map Prod.fst := by
  induction l with
  | nil => simp [findVal]
  | cons p rest ih =>
    by_cases h : p.1 = k
    · simp [findVal, h]
    · simp [findVal, h, ih, Ne.symm h]

lemma hasKey_congr {β γ : Type} {l : List (String × β)} {l' : List (String × γ)} (k : String)
    (h : l.map Prod.fst = l'.map Prod.fst) : hasKey l k = hasKey l' k := by
  have h1 := findVal_isSome_iff k l
  have h2 := findVal_isSome_iff k l'
  rw [h] at h1
  unfold hasKey
  cases hb : (findVal k l').isSome with
  | true => exact h1.mpr (h2.mp hb)
  | false =>
    cases hb' : (findVal k l).isSome with
    | true => exact absurd (h2.mpr (h1.mp hb')) (by simp [hb])
    | false => rfl

lemma setPath_fst (l : List (String × List Pt)) (k : String) (f : List Pt → List Pt) :
    (setPath l k f).map Prod.fst = l.map Prod.fst := by
  unfold setPath
  rw [List.map_map]
  apply List.map_congr_left
  intro p _
  by_cases h : p.1 = k <;> simp [h]

lemma psStep_paths_fst (isPS : α → Bool) (dat : α → List Char) (st : ScanPaths) (e : α) :
    ((psStep isPS dat st e).paths).map Prod.fst = st.paths.map Prod.fst := by
  unfold psStep
  by_cases h : isPS e
  · simp only [h, if_true]
    cases hq : quotAfter robotIdKey (dat e) with
    | none => rfl
    | some idl =>
      dsimp only
      by_cases h2 : st.counts idl.asString > 0 && hasKey st.paths idl.asString
      · simp [h2, setPath_fst]
      · simp [h2]
  · simp [h]

lemma mvStep_paths_fst (isMove : α → Bool) (dat : α → List Char) (st : ScanPaths) (e : α) :
    ((mvStep isMove dat st e).paths).map Prod.fst = st.paths.map Prod.fst := by
  unfold mvStep
  by_cases h : isMove e
  · simp only [h, if_true]
    cases hq : extractMove (dat e) with
    | none => rfl
    | some r =>
      obtain ⟨id, xv, yv⟩ := r
      dsimp only
      by_cases h2 : hasKey st.paths id
      · simp [h2, setPath_fst]
      · simp [h2]
  · simp [h]

lemma pathStep_paths_fst (isPS isMove : α → Bool) (dat : α → List Char) (st : ScanPaths)
    (e : α) : ((pathStep isPS isMove dat st e).paths).map Prod.fst = st.paths.map Prod.fst := by
  unfold pathStep
  rw [mvStep_paths_fst, psStep_paths_fst]

lemma foldl_pathStep_fst (isPS isMove : α → Bool) (dat : α → List Char) (events : List α) :
    ∀ st : ScanPaths,
      ((events.foldl (pathStep isPS isMove dat) st).paths).map Prod.fst
        = st.paths.map Prod.fst := by
  induction events with
  | nil => intro st; rfl
  | cons e rest ih => intro st; rw [List.foldl_cons, ih, pathStep_paths_fst]

lemma initPaths_fst (infos : List (String × RobotInfo)) :
    (initPaths infos).map Prod.fst = infos.map Prod.fst := by
  simp [initPaths, List.map_map]

lemma scanPaths_fst (isPS isMove : α → Bool) (dat : α → List Char)
    (infos : List (String × RobotInfo)) (events : List α) :
    (scanPaths isPS isMove dat infos events).map Prod.fst = infos.map Prod.fst := by
  unfold scanPaths
  rw [foldl_pathStep_fst]
  exact initPaths_fst infos

lemma finalize_fst (paths : List (String × List Pt)) :
    (finalize paths).map Prod.fst = paths.map Prod.fst := by
  simp [finalize, List.map_map]

lemma addDwell_ne_nil {p : List Pt} (h : p ≠ []) : addDwell p ≠ [] := by
  simp [addDwell, h]

lemma addDwell_length {p : List Pt} (h : p ≠ []) : (addDwell p).length = p.length + DWELL := by
  simp [addDwell, h]

/-- Every path entry stays non-empty through the scan. -/
def allPathsNe (l : List (String × List Pt)) : Prop := ∀ q ∈ l, q.2 ≠ []

lemma setPath_allNe {l : List (String × List Pt)} {k : String} {f : List Pt → List Pt}
    (hf : ∀ p, p ≠ [] → f p ≠ []) (h : allPathsNe l) : allPathsNe (setPath l k f) := by
  intro q hq
  unfold setPath at hq
  obtain ⟨p, hp, rfl⟩ := List.mem_map.mp hq
  by_cases hk : p.1 = k
  · simp only [hk, if_true]
    exact hf p.2 (h p hp)
  · simp only [hk, if_false]
    exact h p hp

lemma psStep_allNe (isPS : α → Bool) (dat : α → List Char) {st : ScanPaths} (e : α)
    (h : allPathsNe st.paths) : allPathsNe (psStep isPS dat st e).paths := by
  unfold psStep
  by_cases hps : isPS e
  · simp only [hps, if_true]
    cases hq : quotAfter robotIdKey (dat e) with
    | none => exact h
    | some idl =>
      dsimp only
      by_cases h2 : st.counts idl.asString > 0 && hasKey st.paths idl.asString
      · simp only [h2, if_true]
        exact setPath_allNe (fun p hp => addDwell_ne_nil hp) h
      · simp only [h2, if_false]
        exact h
  · simp only [hps, if_false]
    exact h

lemma mvStep_allNe (isMove : α → Bool) (dat : α → List Char) {st : ScanPaths} (e : α)
    (h : allPathsNe st.paths) : allPathsNe (mvStep isMove dat st e).paths := by
  unfold mvStep
  by_cases hmv : isMove e
  · simp only [hmv, if_true]
    cases hq : extractMove (dat e) with
    | none => exact h
    | some r =>
      obtain ⟨id, xv, yv⟩ := r
      dsimp only
      by_cases h2 : hasKey st.paths id
      · simp only [h2, if_true]
        exact setPath_allNe (fun p _ => by simp) h
      · simp only [h2, if_false]
        exact h
  · simp only [hmv, if_false]
    exact h

lemma scanPaths_allNe (isPS isMove : α → Bool) (dat : α → List Char)
    (infos : List (String × RobotInfo)) (events : List α) :
    allPathsNe (scanPaths isPS isMove dat infos events) := by
  unfold scanPaths
  have hinit : allPathsNe (initPaths infos) := by
    intro q hq
    obtain ⟨p, _, rfl⟩ := List.mem_map.mp hq
    simp
  have main : ∀ (l : List α) (st : ScanPaths), allPathsNe st.paths →
      allPathsNe ((l.foldl (pathStep isPS isMove dat) st).paths) := by
    intro l
    induction l with
    | nil => intro st h; exact h
    | cons e rest ih =>
      intro st h
      rw [List.foldl_cons]
      exact ih _ (mvStep_allNe isMove dat e (psStep_allNe isPS dat e h))
  exact main events _ hinit

lemma finalize_mem_length {paths : List (String × List Pt)} (h : allPathsNe paths) :
    ∀ q ∈ finalize paths, DWELL + 1 ≤ q.2.length := by
  intro q hq
  unfold finalize at hq
  obtain ⟨p, hp, rfl⟩ := List.mem_map.mp hq
  have hne := h p hp
  have hlen : 1 ≤ p.2.length := by
    cases hp2 : p.2 with
    | nil => exact absurd hp2 hne
    | cons a l => simp
  simp only [addDwell_length hne]
  omega

lemma mem_le_maxLen : ∀ (paths : List (String × List Pt)) (a : ℕ) (q : String × List Pt),
    q ∈ paths → q.2.length ≤ paths.foldl (fun m p => max m p.2.length) a
  | [], _, _, hq => absurd hq (List.not_mem_nil _)
  | p :: rest, a, q, hq => by
    rw [List.foldl_cons]
    rcases List.mem_cons.mp hq with rfl | hmem
    · have h1 : q.2.length ≤ max a q.2.length := le_max_right _ _
      have h2 : ∀ (l : List (String × List Pt)) (b : ℕ),
          b ≤ l.foldl (fun m p => max m p.2.length) b := by
        intro l
        induction l with
        | nil => intro b; exact le_refl b
        | cons r lrest ih =>
          intro b
          rw [List.foldl_cons]
          exact le_trans (le_max_left _ _) (ih _)
      exact le_trans h1 (h2 rest _)
    · exact mem_le_maxLen rest _ q hmem

lemma mem_le_maxLen' {paths : List (String × List Pt)} {q : String × List Pt} (hq : q ∈ paths) :
    q.2.length ≤ maxLen paths :=
  mem_le_maxLen paths 0 q hq

lemma buildCore_eq_none_iff (isPS isMove : α → Bool) (dat : α → List Char) (events : List α) :
    buildCore isPS isMove dat events = none ↔
      (scanInfos isPS dat events).infos = [] ∨
      maxLen (finalize (scanPaths isPS isMove dat (scanInfos isPS dat events).infos events))
        = 0 := by
  unfold buildCore
  by_cases h1 : (scanInfos isPS dat events).infos.isEmpty
  · simp only [h1, if_true]
    simp only [List.isEmpty_iff] at h1
    simp [h1]
  · have h1' : (scanInfos isPS dat events).infos ≠ [] := by
      simpa [List.isEmpty_iff] using h1
    simp only [eq_false_intro h1, if_false]
    by_cases h2 : maxLen (finalize (scanPaths isPS isMove dat
        (scanInfos isPS dat events).infos events)) = 0
    · simp [h2, h1']
    · simp [h2, h1']

lemma buildCore_eq_some {isPS isMove : α → Bool} {dat : α → List Char} {events : List α}
    {sd : SimulationData} (h : buildCore isPS isMove dat events = some sd) :
    (scanInfos isPS dat events).infos ≠ [] ∧
    maxLen (finalize (scanPaths isPS isMove dat (scanInfos isPS dat events).infos events))
      ≠ 0 ∧
    sd = { mapId := "current"
           mapName := "Pathfinding (" ++ toString (scanInfos isPS dat events).mapW ++ "x"
             ++ toString (scanInfos isPS dat events).mapH ++ ")"
           frames := mkFrames (scanInfos isPS dat events).infos
             (finalize (scanPaths isPS isMove dat (scanInfos isPS dat events).infos events))
             (maxLen (finalize
               (scanPaths isPS isMove dat (scanInfos isPS dat events).infos events))) } := by
  unfold buildCore at h
  by_cases h1 : (scanInfos isPS dat events).infos.isEmpty
  · simp [h1] at h
  · simp only [h1, Bool.false_eq_true, if_false] at h
    by_cases h2 : maxLen (finalize (scanPaths isPS isMove dat
        (scanInfos isPS dat events).infos events)) = 0
    · simp [h2] at h
    · simp only [h2, if_false] at h
      refine ⟨by simpa [List.isEmpty_iff] using h1, h2, ?_⟩
      exact (Option.some.injEq _ _ ▸ h).symm

lemma getLastD_eq_getD (l : List γ) (d : γ) : l.getLastD d = l.getD (l.length - 1) d := by
  rw [List.getLastD_eq_getLast?, List.getLast?_eq_get?, ← List.getD_eq_getD_get?]

lemma mkFrames_length (infos : List (String × RobotInfo)) (paths : List (String × List Pt))
    (l : Nat) : (mkFrames infos paths l).length = l := by
  simp [mkFrames]

lemma mkFrames_getD {infos : List (String × RobotInfo)} {paths : List (String × List Pt)}
    {l i : Nat} (hi : i < l) :
    (mkFrames infos paths l).getD i default =
      { time := (i : ℚ) * FRAME_INTERVAL
        robots := infos.map (fun p =>
          let path := (findVal p.1 paths).getD []
          let pos := path.getD (min i (path.length - 1)) ⟨0, 0⟩
          { id := p.1, name := p.2.name, type := p.2.type,
            x := (pos.x : ℚ), y := (pos.y : ℚ) }) } := by
  unfold mkFrames
  rw [List.getD_eq_getD_get?, List.get?_map, List.get?_range hi]
  rfl

/-! ## Claim C3 -/

lemma splitLines_ne_nil : ∀ s : List Char, splitLines s ≠ [] := by
  intro s
  cases s with
  | nil => simp [splitLines]
  | cons c rest =>
    unfold splitLines
    by_cases h : c = '\n'
    · simp [h]
    · simp only [h, if_false]
      cases hs : splitLines rest <;> simp

/-- C3: the trajectory builder is a total function into
`Option SimulationData` (it never throws in the embedding); it returns
`none` exactly when no usable data is found — zero agents discovered
from PLANNER_START events or a zero maximum trajectory length — and in
particular the empty JSON array and the empty text log both yield
`none`. -/
theorem c3_null_iff_no_usable_data :
    (∀ events : List Ev,
        parseJSONEvents events = none ↔
          infosOf events = [] ∨ maxLen (finalPaths events) = 0) ∧
    parseJSONEvents [] = none ∧
    (∀ text : List Char,
        parseTextEvents text = none ↔
          (scanInfos (containsSub plannerMark) id (splitLines (trimChars text))).infos = []
          ∨ maxLen (finalize (scanPaths (containsSub plannerMark) (containsSub moveMark) id
              (scanInfos (containsSub plannerMark) id (splitLines (trimChars text))).infos
              (splitLines (trimChars text)))) = 0) ∧
    parseTextEvents ("".toList) = none := by
  refine ⟨?_, by decide, ?_, by decide⟩
  · intro events
    exact buildCore_eq_none_iff evPS evMove Ev.data events
  · intro text
    have hne : (splitLines (trimChars text)).isEmpty = false := by
      cases hs : splitLines (trimChars text) with
      | nil => exact absurd hs (splitLines_ne_nil _)
      | cons a t => rfl
    unfold parseTextEvents
    simp only [hne, Bool.false_eq_true, if_false]
    exact buildCore_eq_none_iff _ _ _ _

/-! ## Claim C9 -/

lemma buildCore_min_frames {isPS isMove : α → Bool} {dat : α → List Char} {events : List α}
    {sd : SimulationData} (h : buildCore isPS isMove dat events = some sd) :
    16 ≤ sd.frames.length ∧ (1500 : ℚ) ≤ (sd.frames.getLastD default).time := by
  obtain ⟨hne, hl0, rfl⟩ := buildCore_eq_some h
  have hfst : (finalize (scanPaths isPS isMove dat (scanInfos isPS dat events).infos
      events)).map Prod.fst = (scanInfos isPS dat events).infos.map Prod.fst := by
    rw [finalize_fst, scanPaths_fst]
  have hPne : finalize (scanPaths isPS isMove dat (scanInfos isPS dat events).infos events)
      ≠ [] := by
    intro hP
    rw [hP] at hfst
    exact hne (List.map_eq_nil.mp hfst.symm)
  obtain ⟨q, hq⟩ := List.exists_mem_of_ne_nil _ hPne
  have h16 : 16 ≤ q.2.length := by
    have := finalize_mem_length (scanPaths_allNe isPS isMove dat _ events) q hq
    simpa [DWELL] using this
  have hL : 16 ≤ maxLen (finalize (scanPaths isPS isMove dat
      (scanInfos isPS dat events).infos events)) :=
    le_trans h16 (mem_le_maxLen' hq)
  constructor
  · simpa [mkFrames_length] using hL
  · set L := maxLen (finalize (scanPaths isPS isMove dat
      (scanInfos isPS dat events).infos events)) with hLdef
    have hlen : (mkFrames (scanInfos isPS dat events).infos
        (finalize (scanPaths isPS isMove dat (scanInfos isPS dat events).infos events))
        L).length = L := mkFrames_length _ _ _
    rw [getLastD_eq_getD, hlen, mkFrames_getD (by omega)]
    have h15 : (15 : ℚ) ≤ ((L - 1 : ℕ) : ℚ) := by
      have : (15 : ℕ) ≤ L - 1 := by omega
      exact_mod_cast this
    simp only [FRAME_INTERVAL]
    nlinarith [h15]

/-- C9 (implicit): every non-null build result has at least 16 frames
and a total duration (last frame time) of at least 1500 ms, for both the
JSON path and the plain-text path. -/
theorem c9_min_sixteen_frames {events : List Ev} {text : List Char} {sd sd' : SimulationData}
    (h : parseJSONEvents events = some sd) (h' : parseTextEvents text = some sd') :
    (16 ≤ sd.frames.length ∧ (1500 : ℚ) ≤ (sd.frames.getLastD default).time) ∧
    (16 ≤ sd'.frames.length ∧ (1500 : ℚ) ≤ (sd'.frames.getLastD default).time) := by
  constructor
  · exact buildCore_min_frames h
  · unfold parseTextEvents at h'
    by_cases hl : (splitLines (trimChars text)).isEmpty
    · rw [if_pos hl] at h'
      cases h'
    · rw [if_neg hl] at h'
      exact buildCore_min_frames h'

/-! ## Claim C7 -/

lemma findVal_append (k : String) (l1 l2 : List (String × β)) :
    findVal k (l1 ++ l2) =
      match findVal k l1 with
      | some v => some v
      | none => findVal k l2 := by
  induction l1 with
  | nil => simp [findVal]
  | cons p rest ih =>
    by_cases h : p.1 = k
    · simp [findVal, h]
    · simp [findVal, h, ih]

lemma infoStep_nodup {isPS : α → Bool} {dat : α → List Char} {st : ScanInfo} (e : α)
    (h : (st.infos.map Prod.fst).Nodup) :
    (((infoStep isPS dat st e).infos).map Prod.fst).Nodup := by
  unfold infoStep
  by_cases hps : isPS e
  · simp only [hps, if_true]
    cases hx : extractPlanner (dat e) with
    | none => exact h
    | some pf =>
      dsimp only
      by_cases hk : hasKey st.infos pf.robotId
      · simp only [hk, if_true]
        exact h
      · simp only [hk, Bool.false_eq_true, if_false]
        have hmem : pf.robotId ∉ st.infos.map Prod.fst := by
          rw [← findVal_isSome_iff]
          simpa [hasKey] using hk
        simp [List.nodup_append, h, hmem]
  · simp only [hps, Bool.false_eq_true, if_false]
    exact h

lemma foldl_infoStep_nodup {isPS : α → Bool} {dat : α → List Char} (events : List α) :
    ∀ st : ScanInfo, (st.infos.map Prod.fst).Nodup →
      (((events.foldl (infoStep isPS dat) st).infos).map Prod.fst).Nodup := by
  induction events with
  | nil => intro st h; exact h
  | cons e rest ih =>
    intro st h
    rw [List.foldl_cons]
    exact ih _ (infoStep_nodup e h)

/-- The first fully parseable PLANNER_START event carrying a given
robot id, as the claim describes it. -/
def psFieldsFor (id : String) (e : Ev) : Option PlannerFields :=
  if e.type = "PLANNER_START" then
    match extractPlanner e.data with
    | some pf => if pf.robotId = id then some pf else none
    | none => none
  else none

lemma foldl_infoStep_findVal (events : List Ev) :
    ∀ (st : ScanInfo) (id : String),
      findVal id ((events.foldl (infoStep evPS Ev.data) st).infos) =
        match findVal id st.infos with
        | some v => some v
        | none => (events.findSome? (psFieldsFor id)).map infoOf := by
  induction events with
  | nil =>
    intro st id
    cases h : findVal id st.infos <;> simp [h]
  | cons e rest ih =>
    intro st id
    rw [List.foldl_cons, List.findSome?_cons]
    by_cases hps : evPS e
    · have htype : e.type = "PLANNER_START" := by simpa [evPS] using hps
      cases hx : extractPlanner e.data with
      | none =>
        have hstep : infoStep evPS Ev.data st e = st := by
          unfold infoStep
          simp [hps, hx]
        have hf : psFieldsFor id e = none := by
          simp [psFieldsFor, htype, hx]
        rw [hstep, hf, ih]
      | some pf =>
        by_cases hid : pf.robotId = id
        · have hf : psFieldsFor id e = some pf := by
            simp [psFieldsFor, htype, hx, hid]
          rw [hf]
          by_cases hk : hasKey st.infos pf.robotId
          · have hstep : infoStep evPS Ev.data st e
                = { st with mapW := pf.mapW, mapH := pf.mapH } := by
              unfold infoStep
              simp [hps, hx, hk]
            have hsome : ∃ v, findVal id st.infos = some v := by
              have := hk
              unfold hasKey at this
              rw [hid] at this
              exact Option.isSome_iff_exists.mp this
            obtain ⟨v, hv⟩ := hsome
            rw [hstep, ih]
            simp [hv]
          · have hstep : infoStep evPS Ev.data st e
                = { infos := st.infos ++ [(pf.robotId, infoOf pf)],
                    mapW := pf.mapW, mapH := pf.mapH } := by
              unfold infoStep
              simp [hps, hx, hk]
            have hnone : findVal id st.infos = none := by
              have := hk
              unfold hasKey at this
              rw [hid] at this
              rw [Option.eq_none_iff_forall_not_mem]
              intro v hv
              exact this (by simp [Option.isSome_iff_exists, Option.mem_def.mp hv])
            rw [hstep, ih]
            dsimp only
            rw [findVal_append]
            simp [hnone, findVal, hid]
        · have hf : psFieldsFor id e = none := by
            simp [psFieldsFor, htype, hx, hid]
          rw [hf]
          by_cases hk : hasKey st.infos pf.robotId
          · have hstep : infoStep evPS Ev.data st e
                = { st with mapW := pf.mapW, mapH := pf.mapH } := by
              unfold infoStep
              simp [hps, hx, hk]
            rw [hstep, ih]
          · have hstep : infoStep evPS Ev.data st e
                = { infos := st.infos ++ [(pf.robotId, infoOf pf)],
                    mapW := pf.mapW, mapH := pf.mapH } := by
              unfold infoStep
              simp [hps, hx, hk]
            rw [hstep, ih]
            dsimp only
            rw [findVal_append]
            cases hv : findVal id st.infos <;> simp [hv, findVal, hid]
    · have htype : e.type ≠ "PLANNER_START" := by simpa [evPS] using hps
      have hstep : infoStep evPS Ev.data st e = st := by
        unfold infoStep
        simp [hps]
      have hf : psFieldsFor id e = none := by
        simp [psFieldsFor, htype]
      rw [hstep, hf, ih]

/-- C7: the AgentInfo set holds exactly one record per unique robot id
occurring in a fully parseable PLANNER_START event, and that record
(display name, start position, inferred kind) comes from the first such
event for that id; later PLANNER_START events for the same id leave the
record unchanged. -/
theorem c7_agent_info_first_start (events : List Ev) :
    ((infosOf events).map Prod.fst).Nodup ∧
    ∀ id : String,
      findVal id (infosOf events) = (events.findSome? (psFieldsFor id)).map infoOf := by
  constructor
  · exact foldl_infoStep_nodup events ⟨[], 0, 0⟩ (by simp)
  · intro id
    have h := foldl_infoStep_findVal events ⟨[], 0, 0⟩ id
    simpa [infosOf, scanInfos, findVal] using h

/-- A concrete structured log and a concrete text log used by witnesses. -/
def wPSEarly : Ev :=
  ⟨"PLANNER_START", ("robotId=\"r1\" robotName=\"Rover\" start=(0,0) map=(10x10)").toList⟩

def wLine : List Char :=
  ("PLANNER_START robotId=\"r1\" robotName=\"Rover\" start=(0,0) map=(10x10)").toList

def wSD : SimulationData := (parseJSONEvents [wPSEarly]).getD ⟨"", "", []⟩

def wSDText : SimulationData := (parseTextEvents wLine).getD ⟨"", "", []⟩

/-- Witness for `c9_min_sixteen_frames` on concrete one-agent logs. -/
theorem c9_min_sixteen_frames_witness :
    parseJSONEvents [wPSEarly] = some wSD ∧
    parseTextEvents wLine = some wSDText ∧
    16 ≤ wSD.frames.length ∧ (1500 : ℚ) ≤ (wSD.frames.getLastD default).time := by
  have h1 : parseJSONEvents [wPSEarly] = some wSD := rfl
  have h2 : parseTextEvents wLine = some wSDText := rfl
  have h := c9_min_sixteen_frames h1 h2
  exact ⟨h1, h2, h.1.1, h.1.2⟩

/-! ## Claim C5 -/

/-- C5 counterexample: seeking to 250 while Running with duration 100
leaves `isPlaying = true` (not Idle) and `currentTime = 250` (not
`clamp(250, 0, 100) = 100`), refuting the claim that seek always lands
in Idle at the clamped time. -/
theorem c5_seek_claim_false :
    (handleSeek ⟨true, 0, 1, some 0⟩ 250).isPlaying = true ∧
    (handleSeek ⟨true, 0, 1, some 0⟩ 250).currentTime = 250 ∧
    ¬ ((handleSeek ⟨true, 0, 1, some 0⟩ 250).isPlaying = false ∧
        (handleSeek ⟨true, 0, 1, some 0⟩ 250).currentTime = 100) := by
  refine ⟨rfl, rfl, ?_⟩
  rintro ⟨h, -⟩
  exact absurd h (by simp [handleSeek])

/-- Evaluation of one `animate` tick once the effective baseline is
identified: `base` is the stored baseline unless it is absent or zero
(the JS falsy check), in which case it is the incoming timestamp. -/
lemma animate_eval (maxT : ℚ) (s : PlayerState) (ts base : ℚ)
    (hbase : base =
      (match s.startTime with
       | some b => if b = 0 then ts else b
       | none => ts)) :
    (animate maxT s ts).currentTime = min ((ts - base) * s.speed) maxT ∧
    (animate maxT s ts).startTime = some base ∧
    (animate maxT s ts).isPlaying
      = (if maxT ≤ min ((ts - base) * s.speed) maxT then false else s.isPlaying) := by
  unfold animate
  rw [← hbase]
  exact ⟨rfl, rfl, rfl⟩

/-- C5 amended: seek stores the raw target `t` as `currentTime` (the
range input, not the handler, keeps `t` within `[0, duration]`), clears
the wall-clock baseline, and leaves `isPlaying` and `speed` unchanged;
when the engine was playing, the animation effect re-derives the
baseline as `now - t / speed`, and the next tick computes an elapsed
time of exactly `t` — playback resumes from the seek point — whenever
that baseline is nonzero; in the degenerate case `now = t / speed` the
falsy baseline check treats the baseline as unset and the tick restarts
the clock at elapsed 0. -/
theorem c5_seek_amended (s : PlayerState) (t now maxT : ℚ) (hsp : 0 < s.speed) :
    (handleSeek s t).currentTime = t ∧
    (handleSeek s t).startTime = none ∧
    (handleSeek s t).isPlaying = s.isPlaying ∧
    (handleSeek s t).speed = s.speed ∧
    (s.isPlaying = true →
      (effectStart (handleSeek s t) now).startTime = some (now - t / s.speed) ∧
      (now - t / s.speed ≠ 0 →
        (animate maxT (effectStart (handleSeek s t) now) now).currentTime = min t maxT) ∧
      (now - t / s.speed = 0 →
        (animate maxT (effectStart (handleSeek s t) now) now).currentTime
          = min 0 maxT)) := by
  refine ⟨rfl, rfl, rfl, rfl, ?_⟩
  intro hp
  have h1 : effectStart (handleSeek s t) now
      = { s with currentTime := t, startTime := some (now - t / s.speed) } := by
    unfold effectStart handleSeek
    simp [hp]
  refine ⟨by rw [h1], ?_, ?_⟩
  · intro hbne
    have harith : (now - (now - t / s.speed)) * s.speed = t := by
      have hne : s.speed ≠ 0 := ne_of_gt hsp
      field_simp
    obtain ⟨hcur, -, -⟩ := animate_eval maxT (effectStart (handleSeek s t) now) now
      (now - t / s.speed) (by rw [h1]; dsimp only; rw [if_neg hbne])
    have hspeed : (effectStart (handleSeek s t) now).speed = s.speed := by rw [h1]
    rw [hspeed] at hcur
    rw [hcur, harith]
  · intro hbz
    obtain ⟨hcur, -, -⟩ := animate_eval maxT (effectStart (handleSeek s t) now) now
      now (by rw [h1]; dsimp only; rw [if_pos hbz])
    rw [hcur]
    norm_num

/-- Witness for `c5_seek_amended` at a concrete Running state whose
re-derived baseline is nonzero. -/
theorem c5_seek_amended_witness :
    (0 : ℚ) < 1 ∧
    (handleSeek ⟨true, 40, 1, some 0⟩ 70).currentTime = 70 ∧
    (animate 200 (effectStart (handleSeek ⟨true, 40, 1, some 0⟩ 70) 1000) 1000).currentTime
      = min 70 200 := by
  have h := c5_seek_amended ⟨true, 40, 1, some 0⟩ 70 1000 200 (by norm_num)
  refine ⟨by norm_num, h.1, (h.2.2.2.2 rfl).2.1 ?_⟩
  norm_num

/-! ## Claim C8 -/

/-- C8: after one `animate` tick under a monotone wall clock the
playback clock never exceeds the duration, and when it reaches the
duration the engine stops playing — from any baseline state.  With a
live (nonzero) baseline `b` the tick sets `currentTime` to
`min((timestamp - b) * speed, duration)`, which equals the clamp of the
scaled elapsed time into `[0, duration]`; with an absent or zero
baseline the JS falsy check re-adopts the timestamp as baseline and the
tick computes elapsed 0. -/
theorem c8_tick_clamped (maxT : ℚ) (s : PlayerState) (ts : ℚ)
    (hsp : 0 ≤ s.speed) (hmax : 0 ≤ maxT)
    (hts : ∀ b : ℚ, s.startTime = some b → b ≤ ts) :
    (animate maxT s ts).currentTime ≤ maxT ∧
    (maxT ≤ (animate maxT s ts).currentTime → (animate maxT s ts).isPlaying = false) ∧
    (∀ b : ℚ, s.startTime = some b → b ≠ 0 →
        (animate maxT s ts).currentTime = min ((ts - b) * s.speed) maxT ∧
        (animate maxT s ts).currentTime = max 0 (min ((ts - b) * s.speed) maxT)) ∧
    ((s.startTime = none ∨ s.startTime = some 0) →
        (animate maxT s ts).currentTime = 0 ∧
        (animate maxT s ts).startTime = some ts) := by
  have hbase : ∃ base : ℚ, base ≤ ts ∧
      base = (match s.startTime with
              | some b => if b = 0 then ts else b
              | none => ts) := by
    rcases hst : s.startTime with _ | b
    · exact ⟨ts, le_refl ts, rfl⟩
    · by_cases hb0 : b = 0
      · exact ⟨ts, le_refl ts, by dsimp only; rw [if_pos hb0]⟩
      · exact ⟨b, hts b hst, by dsimp only; rw [if_neg hb0]⟩
  obtain ⟨base, hble, hbeq⟩ := hbase
  obtain ⟨hcur, hst', hpl⟩ := animate_eval maxT s ts base hbeq
  have he : (0 : ℚ) ≤ (ts - base) * s.speed := mul_nonneg (by linarith) hsp
  refine ⟨?_, ?_, ?_, ?_⟩
  · rw [hcur]
    exact min_le_right _ _
  · intro h
    rw [hpl, if_pos (by rw [← hcur]; exact h)]
  · intro b hb hb0
    have hbb : base = b := by
      rw [hbeq, hb]
      exact if_neg hb0
    rw [hbb] at hcur
    exact ⟨hcur, by rw [hcur]; exact (max_eq_right (le_min (hbb ▸ he) hmax)).symm⟩
  · intro hor
    have hbts : base = ts := by
      rcases hor with hn | h0
      · rw [hbeq, hn]
      · rw [hbeq, h0]
        exact if_pos rfl
    rw [hbts] at hcur hst'
    refine ⟨?_, hst'⟩
    rw [hcur]
    simp [hmax]

/-- Witness for `c8_tick_clamped` at a concrete Running state with a
live baseline. -/
theorem c8_tick_clamped_witness :
    (animate 100 ⟨true, 0, 2, some 10⟩ 60).currentTime = min ((60 - 10) * 2) 100 ∧
    (animate 100 ⟨true, 0, 2, some 10⟩ 60).currentTime ≤ 100 := by
  have h := c8_tick_clamped 100 ⟨true, 0, 2, some 10⟩ 60 (by norm_num) (by norm_num)
    (fun b hb => by injection hb with h'; rw [← h']; norm_num)
  exact ⟨(h.2.2.1 10 rfl (by norm_num)).1, h.1⟩

/-! ## Claim C6 -/

/-- A MOVE_EXECUTED event the builder drops: one missing a required
field (`robotId`, `x`, or `y`), or one whose robot id has no AgentInfo
record. -/
def droppableMove (infos : List (String × RobotInfo)) (e : Ev) : Bool :=
  (e.type == "MOVE_EXECUTED") &&
    (match extractMove e.data with
     | none => true
     | some r => !(hasKey infos r.1))

/-- C6: dropping a malformed or unknown-agent MOVE_EXECUTED event is
local — deleting such an event anywhere in the log leaves the whole
build result unchanged. -/
theorem c6_malformed_move_local (pre post : List Ev) (e : Ev)
    (hd : droppableMove (infosOf (pre ++ post)) e = true) :
    parseJSONEvents (pre ++ e :: post) = parseJSONEvents (pre ++ post) := by
  obtain ⟨h1, h2⟩ := Bool.and_eq_true_iff.mp hd
  have htype : e.type = "MOVE_EXECUTED" := by simpa using h1
  have hps : evPS e = false := by simp [evPS, htype]
  have hmv : evMove e = true := by simp [evMove, htype]
  have hinfoStep : ∀ st : ScanInfo, infoStep evPS Ev.data st e = st := by
    intro st
    unfold infoStep
    simp [hps]
  have hinfos : scanInfos evPS Ev.data (pre ++ e :: post)
      = scanInfos evPS Ev.data (pre ++ post) := by
    unfold scanInfos
    rw [List.foldl_append, List.foldl_append, List.foldl_cons, hinfoStep]
  have hpathStep : ∀ st : ScanPaths,
      st.paths.map Prod.fst = (infosOf (pre ++ post)).map Prod.fst →
      pathStep evPS evMove Ev.data st e = st := by
    intro st hfst
    have hpsStep : psStep evPS Ev.data st e = st := by
      unfold psStep
      simp [hps]
    unfold pathStep
    rw [hpsStep]
    unfold mvStep
    cases hx : extractMove e.data with
    | none => simp [hmv, hx]
    | some r =>
      have hkey : hasKey (infosOf (pre ++ post)) r.1 = false := by
        rw [hx] at h2
        simpa using h2
      have hkey' : hasKey st.paths r.1 = false := by
        rw [hasKey_congr r.1 hfst]
        exact hkey
      obtain ⟨id, xv, yv⟩ := r
      simp only [hmv, if_true, hx]
      simp only at hkey'
      simp [hkey']
  have hpaths : scanPaths evPS evMove Ev.data (infosOf (pre ++ post)) (pre ++ e :: post)
      = scanPaths evPS evMove Ev.data (infosOf (pre ++ post)) (pre ++ post) := by
    unfold scanPaths
    rw [List.foldl_append, List.foldl_append, List.foldl_cons]
    have hmid := hpathStep
      (List.foldl (pathStep evPS evMove Ev.data)
        ⟨initPaths (infosOf (pre ++ post)), fun _ => 0⟩ pre)
      (by rw [foldl_pathStep_fst, initPaths_fst])
    rw [hmid]
  unfold parseJSONEvents
  simp only [buildCore]
  rw [hinfos]
  have : scanPaths evPS evMove Ev.data (scanInfos evPS Ev.data (pre ++ post)).infos
      (pre ++ e :: post)
      = scanPaths evPS evMove Ev.data (scanInfos evPS Ev.data (pre ++ post)).infos
        (pre ++ post) := hpaths
  rw [this]

/-- Shared concrete events for the witnesses below. -/
def wPS : Ev :=
  ⟨"PLANNER_START", ("robotId=\"r1\" robotName=\"Rover\" start=(0,0) map=(10x10)").toList⟩

def wMove : Ev := ⟨"MOVE_EXECUTED", ("robotId=\"r1\" x=1 y=1").toList⟩

def wBadMove : Ev := ⟨"MOVE_EXECUTED", ("robotId=\"r2\" x=1 y=1").toList⟩

/-- Witness for `c6_malformed_move_local`: a MOVE_EXECUTED for the
unknown robot id `r2` can be deleted without changing the result. -/
theorem c6_malformed_move_local_witness :
    droppableMove (infosOf ([wPS] ++ [])) wBadMove = true ∧
    parseJSONEvents ([wPS] ++ wBadMove :: []) = parseJSONEvents ([wPS] ++ []) :=
  ⟨by decide, c6_malformed_move_local [wPS] [] wBadMove (by decide)⟩

/-! ## Claim C1 -/

lemma extractPlanner_robotId {d : List Char} {pf : PlannerFields}
    (h : extractPlanner d = some pf) :
    ∃ idl : List Char, quotAfter robotIdKey d = some idl ∧ idl.asString = pf.robotId := by
  unfold extractPlanner at h
  rcases hq : quotAfter robotIdKey d with _ | idl
  · rw [hq] at h
    simp at h
  · rcases hn : quotAfter robotNameKey d with _ | nm
    · rw [hq, hn] at h
      simp at h
    · rcases hs : tupAfter startKey ',' ')' d with _ | s
      · rw [hq, hn, hs] at h
        simp at h
      · rcases hm : tupAfter mapKey 'x' ')' d with _ | m
        · rw [hq, hn, hs, hm] at h
          simp at h
        · obtain ⟨sx, sy⟩ := s
          obtain ⟨w, hh⟩ := m
          rw [hq, hn, hs, hm] at h
          refine ⟨idl, rfl, ?_⟩
          injection h with h2
          rw [← h2]

lemma foldl_infoStep_skip (l : List Ev) (h : ∀ e ∈ l, evPS e = false) :
    ∀ st : ScanInfo, List.foldl (infoStep evPS Ev.data) st l = st := by
  induction l with
  | nil => intro st; rfl
  | cons e rest ih =>
    intro st
    rw [List.foldl_cons]
    have hstep : infoStep evPS Ev.data st e = st := by
      unfold infoStep
      simp [h e (List.mem_cons_self e rest)]
    rw [hstep]
    exact ih (fun e' he' => h e' (List.mem_cons_of_mem _ he')) st

lemma ps_step_eval {e : Ev} {id : String} {idl : List Char}
    (htype : e.type = "PLANNER_START") (hq : quotAfter robotIdKey e.data = some idl)
    (hid : idl.asString = id) (p : List Pt) (counts : String → Nat) :
    pathStep evPS evMove Ev.data ⟨[(id, p)], counts⟩ e
      = ⟨[(id, if counts id > 0 then addDwell p else p)],
          fun k => if k = id then counts id + 1 else counts k⟩ := by
  have hps : evPS e = true := by simp [evPS, htype]
  have hmv : evMove e = false := by simp [evMove, htype]
  subst hid
  unfold pathStep psStep mvStep
  simp only [hps, if_true, hq]
  have hkey : hasKey [(idl.asString, p)] idl.asString = true := by
    simp [hasKey, findVal]
  by_cases hc : counts idl.asString > 0
  · simp [hc, hkey, hmv, setPath]
  · simp [hc, hkey, hmv]

lemma moves_fold (id : String) :
    ∀ moves : List Ev,
      (∀ e ∈ moves, e.type = "MOVE_EXECUTED" ∧
          Option.map Prod.fst (extractMove e.data) = some id) →
      ∀ (p : List Pt) (counts : String → Nat),
        ∃ q : List Pt,
          List.foldl (pathStep evPS evMove Ev.data) ⟨[(id, p)], counts⟩ moves
            = ⟨[(id, q)], counts⟩ ∧ q.length = p.length + moves.length := by
  intro moves
  induction moves with
  | nil =>
    intro _ p counts
    exact ⟨p, rfl, by simp⟩
  | cons e rest ih =>
    intro hm p counts
    obtain ⟨htype, hext⟩ := hm e (List.mem_cons_self e rest)
    have hps : evPS e = false := by simp [evPS, htype]
    have hmv : evMove e = true := by simp [evMove, htype]
    obtain ⟨r, hxr, hid⟩ := Option.map_eq_some'.mp hext
    obtain ⟨rid, xv, yv⟩ := r
    have hrid : rid = id := hid
    rw [hrid] at hxr
    have hstep : pathStep evPS evMove Ev.data ⟨[(id, p)], counts⟩ e
        = ⟨[(id, p ++ [⟨xv, yv⟩])], counts⟩ := by
      unfold pathStep psStep mvStep
      simp only [hps, Bool.false_eq_true, if_false, hmv, if_true, hxr]
      have hkey : hasKey [(id, p)] id = true := by
        simp [hasKey, findVal]
      simp [hkey, setPath]
    rw [List.foldl_cons, hstep]
    obtain ⟨q, hfold, hlen⟩ :=
      ih (fun e' he' => hm e' (List.mem_cons_of_mem _ he')) (p ++ [⟨xv, yv⟩]) counts
    refine ⟨q, hfold, ?_⟩
    rw [hlen]
    simp
    omega

/-- C1: in a log holding exactly one agent, two fully parseable
PLANNER_START events for it, at least one MOVE_EXECUTED between them
(`moves1`) and any number after (`moves2`), the agent's trajectory has
length `1 + |moves1| + 15 + |moves2| + 15`: start point, first-task
moves, 15-point mid dwell run at the second PLANNER_START, second-task
moves, and the 15-point trailing dwell run. -/
theorem c1_dwell_insertion_count
    (ps1 ps2 : Ev) (moves1 moves2 : List Ev) (id : String) (pf1 pf2 : PlannerFields)
    (h1t : ps1.type = "PLANNER_START") (h1e : extractPlanner ps1.data = some pf1)
    (h1i : pf1.robotId = id)
    (h2t : ps2.type = "PLANNER_START") (h2e : extractPlanner ps2.data = some pf2)
    (h2i : pf2.robotId = id)
    (hm1 : ∀ e ∈ moves1, e.type = "MOVE_EXECUTED" ∧
        Option.map Prod.fst (extractMove e.data) = some id)
    (hm2 : ∀ e ∈ moves2, e.type = "MOVE_EXECUTED" ∧
        Option.map Prod.fst (extractMove e.data) = some id)
    (hne : moves1 ≠ []) :
    ∃ q : List Pt,
      findVal id (finalPaths (ps1 :: (moves1 ++ ps2 :: moves2))) = some q ∧
      q.length = 1 + moves1.length + 15 + moves2.length + 15 := by
  have hm1ps : ∀ e ∈ moves1, evPS e = false := by
    intro e he
    simp [evPS, (hm1 e he).1]
  have hm2ps : ∀ e ∈ moves2, evPS e = false := by
    intro e he
    simp [evPS, (hm2 e he).1]
  -- the discovered agent set is exactly [(id, infoOf pf1)]
  have hinfos : infosOf (ps1 :: (moves1 ++ ps2 :: moves2)) = [(id, infoOf pf1)] := by
    unfold infosOf scanInfos
    rw [List.foldl_cons]
    have hstep1 : infoStep evPS Ev.data ⟨[], 0, 0⟩ ps1
        = ⟨[(id, infoOf pf1)], pf1.mapW, pf1.mapH⟩ := by
      unfold infoStep
      simp [evPS, h1t, h1e, hasKey, findVal, h1i]
    rw [hstep1, List.foldl_append, foldl_infoStep_skip moves1 hm1ps, List.foldl_cons]
    have hstep2 : infoStep evPS Ev.data ⟨[(id, infoOf pf1)], pf1.mapW, pf1.mapH⟩ ps2
        = ⟨[(id, infoOf pf1)], pf2.mapW, pf2.mapH⟩ := by
      unfold infoStep
      simp [evPS, h2t, h2e, hasKey, findVal, h2i]
    rw [hstep2, foldl_infoStep_skip moves2 hm2ps]
  obtain ⟨idl1, hq1, hida1⟩ := extractPlanner_robotId h1e
  obtain ⟨idl2, hq2, hida2⟩ := extractPlanner_robotId h2e
  rw [h1i] at hida1
  rw [h2i] at hida2
  -- walk the path-building fold through the event list
  have hpaths : ∃ q2 : List Pt,
      scanPaths evPS evMove Ev.data (infosOf (ps1 :: (moves1 ++ ps2 :: moves2)))
        (ps1 :: (moves1 ++ ps2 :: moves2)) = [(id, q2)] ∧
      q2.length = 1 + moves1.length + 15 + moves2.length := by
    rw [hinfos]
    unfold scanPaths
    rw [List.foldl_cons]
    have hinit : initPaths [(id, infoOf pf1)]
        = [(id, [⟨(infoOf pf1).startX, (infoOf pf1).startY⟩])] := by
      simp [initPaths]
    rw [hinit]
    rw [ps_step_eval h1t hq1 hida1]
    simp only [gt_iff_lt, Nat.lt_irrefl, if_false]
    rw [List.foldl_append]
    obtain ⟨q1, hfold1, hlen1⟩ := moves_fold id moves1 hm1
      [⟨(infoOf pf1).startX, (infoOf pf1).startY⟩]
      (fun k => if k = id then (fun _ => (0 : Nat)) id + 1 else (fun _ => (0 : Nat)) k)
    rw [hfold1, List.foldl_cons]
    rw [ps_step_eval h2t hq2 hida2]
    have hcnt : (fun k => if k = id then (fun _ => (0 : Nat)) id + 1
        else (fun _ => (0 : Nat)) k) id > 0 := by simp
    rw [if_pos hcnt]
    obtain ⟨q2, hfold2, hlen2⟩ := moves_fold id moves2 hm2 (addDwell q1) _
    rw [hfold2]
    refine ⟨q2, rfl, ?_⟩
    have hq1ne : q1 ≠ [] := by
      intro hq
      rw [hq] at hlen1
      simp only [List.length_nil, List.length_cons] at hlen1
      omega
    rw [hlen2, addDwell_length hq1ne, hlen1]
    simp only [DWELL, List.length_cons, List.length_nil]
  obtain ⟨q2, hsp, hlen⟩ := hpaths
  have hq2ne : q2 ≠ [] := by
    intro hq
    rw [hq] at hlen
    simp only [List.length_nil] at hlen
    omega
  refine ⟨addDwell q2, ?_, ?_⟩
  · unfold finalPaths
    rw [hsp]
    simp [finalize, findVal]
  · rw [addDwell_length hq2ne, hlen]
    simp only [DWELL]

/-- Witness for `c1_dwell_insertion_count`: one agent, one move in the
first task, none in the second; the trajectory has
`1 + 1 + 15 + 0 + 15 = 32` points. -/
theorem c1_dwell_insertion_count_witness :
    ∃ q : List Pt,
      findVal "r1" (finalPaths (wPS :: ([wMove] ++ wPS :: []))) = some q ∧
      q.length = 1 + [wMove].length + 15 + ([] : List Ev).length + 15 :=
  c1_dwell_insertion_count wPS wPS [wMove] [] "r1"
    ⟨"r1", "Rover", 0, 0, 10, 10⟩ ⟨"r1", "Rover", 0, 0, 10, 10⟩
    rfl (by decide) rfl rfl (by decide) rfl
    (by decide) (by decide) (by decide)

/-! ## Claim C2 -/

lemma getD_map {γ δ : Type} {l : List γ} {f : γ → δ} {k : ℕ} (hk : k < l.length)
    (d : γ) (d' : δ) : (l.map f).getD k d' = f (l.getD k d) := by
  rw [List.getD_eq_getD_get?, List.getD_eq_getD_get?, List.get?_map]
  cases h : l.get? k with
  | none =>
    have := List.get?_eq_none.mp h
    omega
  | some a => simp

/-- C2: for every non-null build result, the frames equal the reference
construction — frame count is the maximum trajectory length, frame `i`
is at time `i * 100` ms (strictly increasing), every frame lists the
agents with the same ids, names and kinds in AgentInfo insertion order,
every agent id has a trajectory, and the `k`-th agent's position in
frame `i` is its trajectory's waypoint at index
`min i (length - 1)` (so an exhausted trajectory holds its last
position). -/
theorem c2_frames_reference (events : List Ev) (sd : SimulationData)
    (h : parseJSONEvents events = some sd) :
    sd.frames.length = maxLen (finalPaths events) ∧
    (∀ i, i < sd.frames.length →
        (sd.frames.getD i default).time = (i : ℚ) * 100) ∧
    (∀ i, i + 1 < sd.frames.length →
        (sd.frames.getD i default).time < (sd.frames.getD (i + 1) default).time) ∧
    (∀ i, i < sd.frames.length →
        (sd.frames.getD i default).robots.map (fun r => (r.id, r.name, r.type))
          = (infosOf events).map (fun p => (p.1, p.2.name, p.2.type))) ∧
    (∀ p ∈ infosOf events, (findVal p.1 (finalPaths events)).isSome = true) ∧
    (∀ i k, i < sd.frames.length → k < (infosOf events).length →
        ∃ path : List Pt,
          findVal ((infosOf events).getD k ("", ⟨"", "", 0, 0⟩)).1 (finalPaths events)
            = some path ∧
          ((sd.frames.getD i default).robots.getD k default).x
            = ((path.getD (min i (path.length - 1)) ⟨0, 0⟩).x : ℚ) ∧
          ((sd.frames.getD i default).robots.getD k default).y
            = ((path.getD (min i (path.length - 1)) ⟨0, 0⟩).y : ℚ)) := by
  obtain ⟨hne, hL, hsd⟩ := buildCore_eq_some h
  have hframes : sd.frames = mkFrames (infosOf events) (finalPaths events)
      (maxLen (finalPaths events)) := by
    rw [hsd]
    rfl
  have hlen : sd.frames.length = maxLen (finalPaths events) := by
    rw [hframes, mkFrames_length]
  have hkeys : (finalPaths events).map Prod.fst = (infosOf events).map Prod.fst := by
    unfold finalPaths
    rw [finalize_fst, scanPaths_fst]
  have hsome : ∀ p ∈ infosOf events, (findVal p.1 (finalPaths events)).isSome = true := by
    intro p hp
    rw [findVal_isSome_iff, hkeys]
    exact List.mem_map_of_mem Prod.fst hp
  refine ⟨hlen, ?_, ?_, ?_, hsome, ?_⟩
  · intro i hi
    rw [hlen] at hi
    rw [hframes, mkFrames_getD hi]
    simp [FRAME_INTERVAL]
  · intro i hi
    rw [hlen] at hi
    rw [hframes, mkFrames_getD (by omega), mkFrames_getD (by omega)]
    dsimp only
    have : ((i : ℚ)) < ((i + 1 : ℕ) : ℚ) := by
      push_cast
      linarith
    simp only [FRAME_INTERVAL]
    push_cast
    nlinarith [this]
  · intro i hi
    rw [hlen] at hi
    rw [hframes, mkFrames_getD hi]
    simp [List.map_map]
  · intro i k hi hk
    rw [hlen] at hi
    have hrob : (sd.frames.getD i default).robots
        = (infosOf events).map (fun p =>
            let path := (findVal p.1 (finalPaths events)).getD []
            let pos := path.getD (min i (path.length - 1)) ⟨0, 0⟩
            { id := p.1, name := p.2.name, type := p.2.type,
              x := (pos.x : ℚ), y := (pos.y : ℚ) }) := by
      rw [hframes, mkFrames_getD hi]
    rw [hrob, getD_map hk ("", ⟨"", "", 0, 0⟩) default]
    set p := (infosOf events).getD k ("", ⟨"", "", 0, 0⟩) with hp
    have hpmem : p ∈ infosOf events := by
      rw [hp, List.getD_eq_getD_get?]
      cases hget : (infosOf events).get? k with
      | none =>
        have := List.get?_eq_none.mp hget
        omega
      | some a => simpa using List.get?_mem hget
    obtain ⟨path, hpath⟩ := Option.isSome_iff_exists.mp (hsome p hpmem)
    refine ⟨path, hpath, ?_, ?_⟩ <;> simp [hpath]

def wSD2 : SimulationData := (parseJSONEvents [wPSEarly, wMove]).getD ⟨"", "", []⟩

/-- Witness for `c2_frames_reference` on a concrete one-agent log with
one move. -/
theorem c2_frames_reference_witness :
    parseJSONEvents [wPSEarly, wMove] = some wSD2 ∧
    wSD2.frames.length = maxLen (finalPaths [wPSEarly, wMove]) ∧
    (wSD2.frames.getD 0 default).robots.map (fun r => (r.id, r.name, r.type))
      = (infosOf [wPSEarly, wMove]).map (fun p => (p.1, p.2.name, p.2.type)) := by
  have h1 : parseJSONEvents [wPSEarly, wMove] = some wSD2 := rfl
  have h := c2_frames_reference [wPSEarly, wMove] wSD2 h1
  refine ⟨h1, h.1, h.2.2.2.1 0 ?_⟩
  rw [h.1]
  decide

/-! ## Claim C10 -/

lemma isPrefixOf_append_self (k rest : List Char) : k.isPrefixOf (k ++ rest) = true := by
  induction k with
  | nil => simp
  | cons a t ih => simp [List.isPrefixOf_cons₂, ih]

lemma takeWhile_all {p : Char → Bool} {l : List Char} (h : ∀ c ∈ l, p c = true) :
    l.takeWhile p = l := by
  induction l with
  | nil => rfl
  | cons a t ih =>
    rw [List.takeWhile_cons, if_pos (h a (List.mem_cons_self a t))]
    rw [ih (fun c hc => h c (List.mem_cons_of_mem a hc))]

lemma takeWhile_append_stop {p : Char → Bool} {l : List Char} (h : ∀ c ∈ l, p c = true)
    {c : Char} (hc : p c = false) (rest : List Char) :
    (l ++ c :: rest).takeWhile p = l := by
  induction l with
  | nil => simp [List.takeWhile_cons, hc]
  | cons a t ih =>
    rw [List.cons_append, List.takeWhile_cons, if_pos (h a (List.mem_cons_self a t))]
    rw [ih (fun c' hc' => h c' (List.mem_cons_of_mem a hc'))]

lemma digit_ne {c k : Char} (h : c.isDigit = true) (hk : k.isDigit = false) : c ≠ k := by
  intro he
  rw [he, hk] at h
  cases h

lemma quotAfter_here {key s v : List Char} (hs : s ≠ [])
    (hh : quotHere key s = some v) : quotAfter key s = some v := by
  cases s with
  | nil => cases hs rfl
  | cons c rest => simp only [quotAfter, hh]

lemma numAfter_skip {k0 : Char} {krest : List Char} (l : List Char)
    (hl : ∀ c ∈ l, c ≠ k0) (b : List Char) :
    numAfter (k0 :: krest) (l ++ b) = numAfter (k0 :: krest) b := by
  induction l with
  | nil => rfl
  | cons c t ih =>
    have hc : (k0 == c) = false :=
      beq_eq_false_iff_ne.mpr (fun h => hl c (List.mem_cons_self c t) h.symm)
    have hhere : numHere (k0 :: krest) (c :: (t ++ b)) = none := by
      unfold numHere
      rw [if_neg ?_]
      simp [List.isPrefixOf_cons₂, hc]
    rw [List.cons_append]
    simp only [numAfter, hhere]
    exact ih (fun c' hc' => hl c' (List.mem_cons_of_mem c hc'))

lemma numAfter_cons_here {key : List Char} {c : Char} {rest : List Char} {v : ℕ}
    (hh : numHere key (c :: rest) = some v) :
    numAfter key (c :: rest) = some v := by
  simp only [numAfter, hh]

lemma numAfter_cons_step {key : List Char} {c : Char} {rest : List Char}
    (hh : numHere key (c :: rest) = none) :
    numAfter key (c :: rest) = numAfter key rest := by
  simp only [numAfter, hh]

lemma extractMove_none_of_x {d : List Char} (hx : numAfter xKey d = none) :
    extractMove d = none := by
  unfold extractMove
  rcases hq : quotAfter robotIdKey d with _ | idv <;>
    rcases hy : numAfter yKey d with _ | yv <;>
      rw [hx]

/-- MOVE_EXECUTED data `robotId="r1" x=<d1>.<d2> y=<d3>` with a
fractional x value. -/
def mkFracMove (d1 d2 d3 : List Char) : List Char :=
  'r' :: 'o' :: 'b' :: 'o' :: 't' :: 'I' :: 'd' :: '=' :: '"' :: 'r' :: '1' :: '"' :: ' ' :: 'x' :: '=' ::
    (d1 ++ '.' :: (d2 ++ ' ' :: 'y' :: '=' :: d3))

/-- MOVE_EXECUTED data `robotId="r1" x=-<d1> y=<d3>` with a negative
x value. -/
def mkNegMove (d1 d3 : List Char) : List Char :=
  'r' :: 'o' :: 'b' :: 'o' :: 't' :: 'I' :: 'd' :: '=' :: '"' :: 'r' :: '1' :: '"' :: ' ' :: 'x' :: '=' :: '-' ::
    (d1 ++ ' ' :: 'y' :: '=' :: d3)

lemma quotAfter_mkFracMove (d1 d2 d3 : List Char) :
    quotAfter robotIdKey (mkFracMove d1 d2 d3) = some ['r', '1'] := by
  apply quotAfter_here (by simp [mkFracMove])
  rw [show mkFracMove d1 d2 d3 = robotIdKey ++
    ('r' :: '1' :: '"' :: ' ' :: 'x' :: '=' ::(d1 ++ '.' :: (d2 ++ ' ' :: 'y' :: '=' :: d3))) from rfl]
  unfold quotHere
  rw [if_pos (isPrefixOf_append_self robotIdKey _)]
  rw [List.drop_left]
  dsimp only
  rw [show ('r' :: '1' :: '"' :: ' ' :: 'x' :: '=' ::(d1 ++ '.' :: (d2 ++ ' ' :: 'y' :: '=' :: d3))
      : List Char)
    = ['r','1'] ++ '"' :: (' ' :: 'x' :: '=' ::(d1 ++ '.' :: (d2 ++ ' ' :: 'y' :: '=' :: d3)))
    from rfl]
  rw [takeWhile_append_stop (by decide) (by decide)]
  rw [if_pos (by simp)]

lemma numAfter_x_mkFracMove (d1 d2 d3 : List Char) (h1 : d1 ≠ [])
    (hd1 : ∀ c ∈ d1, c.isDigit) :
    numAfter xKey (mkFracMove d1 d2 d3) = some (digitsVal d1) := by
  rw [show mkFracMove d1 d2 d3
    = ('r' :: 'o' :: 'b' :: 'o' :: 't' :: 'I' :: 'd' :: '=' :: '"' :: 'r' :: '1' :: '"' :: ' ' ::[]) ++
      ('x' :: '=' ::(d1 ++ '.' :: (d2 ++ ' ' :: 'y' :: '=' :: d3))) from rfl]
  rw [show xKey = 'x' :: '=' :: [] from rfl]
  rw [numAfter_skip _ (by decide) _]
  apply numAfter_cons_here
  rw [show ('x' :: '=' ::(d1 ++ '.' :: (d2 ++ ' ' :: 'y' :: '=' :: d3)) : List Char)
    = ('x' :: '=' ::[]) ++ (d1 ++ '.' :: (d2 ++ ' ' :: 'y' :: '=' :: d3)) from rfl]
  unfold numHere
  rw [if_pos (isPrefixOf_append_self ('x' :: '=' ::[]) _)]
  rw [List.drop_left]
  dsimp only
  rw [show (d1 ++ '.' :: (d2 ++ ' ' :: 'y' :: '=' :: d3))
    = d1 ++ '.' :: (d2 ++ ' ' :: 'y' :: '=' :: d3) from rfl]
  rw [takeWhile_append_stop hd1 (by decide)]
  rw [if_neg h1]

lemma numAfter_y_mkFracMove (d1 d2 d3 : List Char) (h3 : d3 ≠ [])
    (hd1 : ∀ c ∈ d1, c.isDigit) (hd2 : ∀ c ∈ d2, c.isDigit)
    (hd3 : ∀ c ∈ d3, c.isDigit) :
    numAfter yKey (mkFracMove d1 d2 d3) = some (digitsVal d3) := by
  rw [show mkFracMove d1 d2 d3
    = ('r' :: 'o' :: 'b' :: 'o' :: 't' :: 'I' :: 'd' :: '=' :: '"' :: 'r' :: '1' :: '"' :: ' ' :: 'x' :: '=' ::[]) ++
      (d1 ++ '.' :: (d2 ++ ' ' :: 'y' :: '=' :: d3)) from rfl]
  rw [show yKey = 'y' :: '=' :: [] from rfl]
  rw [numAfter_skip _ (by decide) _]
  rw [numAfter_skip d1 (fun c hc => digit_ne (hd1 c hc) (by decide)) _]
  rw [show ('.' :: (d2 ++ ' ' :: 'y' :: '=' :: d3) : List Char)
    = ['.'] ++ (d2 ++ ' ' :: 'y' :: '=' :: d3) from rfl]
  rw [numAfter_skip _ (by decide) _]
  rw [numAfter_skip d2 (fun c hc => digit_ne (hd2 c hc) (by decide)) _]
  rw [show (' ' :: 'y' :: '=' :: d3 : List Char) = [' '] ++ ('y' :: '=' :: d3) from rfl]
  rw [numAfter_skip _ (by decide) _]
  apply numAfter_cons_here
  rw [show ('y' :: '=' :: d3 : List Char) = ('y' :: '=' ::[]) ++ d3 from rfl]
  unfold numHere
  rw [if_pos (isPrefixOf_append_self ('y' :: '=' ::[]) _)]
  rw [List.drop_left]
  dsimp only
  rw [takeWhile_all hd3]
  rw [if_neg h3]

lemma numAfter_x_mkNegMove (d1 d3 : List Char)
    (hd1 : ∀ c ∈ d1, c.isDigit) (hd3 : ∀ c ∈ d3, c.isDigit) :
    numAfter xKey (mkNegMove d1 d3) = none := by
  have hhere : numHere ('x' :: '=' ::[]) ('x' :: '=' :: '-' ::(d1 ++ ' ' :: 'y' :: '=' :: d3))
      = none := by
    rw [show ('x' :: '=' :: '-' ::(d1 ++ ' ' :: 'y' :: '=' :: d3) : List Char)
      = ('x' :: '=' ::[]) ++ ('-' ::(d1 ++ ' ' :: 'y' :: '=' :: d3)) from rfl]
    unfold numHere
    rw [if_pos (isPrefixOf_append_self ('x' :: '=' ::[]) _)]
    rw [List.drop_left]
    dsimp only
    rw [show ('-' ::(d1 ++ ' ' :: 'y' :: '=' :: d3) : List Char)
      = [] ++ '-' :: (d1 ++ ' ' :: 'y' :: '=' :: d3) from rfl]
    rw [takeWhile_append_stop (by decide) (by decide)]
    rw [if_pos rfl]
  rw [show mkNegMove d1 d3
    = ('r' :: 'o' :: 'b' :: 'o' :: 't' :: 'I' :: 'd' :: '=' :: '"' :: 'r' :: '1' :: '"' :: ' ' ::[]) ++
      ('x' :: '=' :: '-' ::(d1 ++ ' ' :: 'y' :: '=' :: d3)) from rfl]
  rw [show xKey = 'x' :: '=' :: [] from rfl]
  rw [numAfter_skip _ (by decide) _]
  rw [numAfter_cons_step hhere]
  rw [show ('=' :: '-' ::(d1 ++ ' ' :: 'y' :: '=' :: d3) : List Char)
    = ['=', '-'] ++ (d1 ++ ' ' :: 'y' :: '=' :: d3) from rfl]
  rw [numAfter_skip _ (by decide) _]
  rw [numAfter_skip d1 (fun c hc => digit_ne (hd1 c hc) (by decide)) _]
  rw [show (' ' :: 'y' :: '=' :: d3 : List Char) = [' ', 'y', '='] ++ d3 from rfl]
  rw [numAfter_skip _ (by decide) _]
  rw [show d3 = d3 ++ [] from (List.append_nil d3).symm]
  rw [numAfter_skip d3 (fun c hc => digit_ne (hd3 c hc) (by decide)) _]
  rfl

/-- C10 counterexample: the fractional MOVE_EXECUTED value `x=1.5` is
not dropped — the `\d+` pattern captures the leading digits, so the
event contributes the waypoint `(1, 2)` and a one-move log produces 17
frames instead of the claimed 16. -/
theorem c10_coord_parse_claim_false :
    extractMove (("robotId=\"r1\" x=1.5 y=2").toList) = some ("r1", 1, 2) ∧
    (parseJSONEvents [wPSEarly, ⟨"MOVE_EXECUTED", ("robotId=\"r1\" x=1.5 y=2").toList⟩]).map
      (fun sd => sd.frames.length) = some 17 := by
  constructor
  · decide
  · decide

/-- C10 amended: the extraction patterns match digit runs.  A
MOVE_EXECUTED whose `x` is negative (`x=-…`) or carries no digits is
dropped, but a fractional `x=<int>.<frac>` is *not* dropped: the
leading integer digits are captured and a waypoint is appended with the
truncated value.  PLANNER_START `start` and `map` tuples must match the
full `(\d+,\d+)` / `(\d+x\d+)` shape, so negative or fractional
coordinates there produce no AgentInfo record. -/
theorem c10_coord_parse_amended :
    (∀ d1 d2 d3 : List Char, d1 ≠ [] → d3 ≠ [] →
      (∀ c ∈ d1, c.isDigit) → (∀ c ∈ d2, c.isDigit) → (∀ c ∈ d3, c.isDigit) →
      extractMove (mkFracMove d1 d2 d3)
        = some ("r1", digitsVal d1, digitsVal d3)) ∧
    (∀ d1 d3 : List Char, (∀ c ∈ d1, c.isDigit) → (∀ c ∈ d3, c.isDigit) →
      extractMove (mkNegMove d1 d3) = none) ∧
    extractMove (("robotId=\"r1\" x=abc y=2").toList) = none ∧
    extractPlanner (("robotId=\"r1\" robotName=\"Rover\" start=(-1,2) map=(10x10)").toList)
      = none ∧
    extractPlanner (("robotId=\"r1\" robotName=\"Rover\" start=(1.5,2) map=(10x10)").toList)
      = none ∧
    extractPlanner (("robotId=\"r1\" robotName=\"Rover\" start=(0,0) map=(10x10.5)").toList)
      = none := by
  refine ⟨?_, ?_, by decide, by decide, by decide, by decide⟩
  · intro d1 d2 d3 h1 h3 hd1 hd2 hd3
    unfold extractMove
    rw [quotAfter_mkFracMove, numAfter_x_mkFracMove d1 d2 d3 h1 hd1,
      numAfter_y_mkFracMove d1 d2 d3 h3 hd1 hd2 hd3]
    rfl
  · intro d1 d3 hd1 hd3
    exact extractMove_none_of_x (numAfter_x_mkNegMove d1 d3 hd1 hd3)

/-- Witness for `c10_coord_parse_amended` at concrete digit lists. -/
theorem c10_coord_parse_amended_witness :
    extractMove (mkFracMove ['1'] ['5'] ['2']) = some ("r1", 1, 2) ∧
    extractMove (mkNegMove ['7'] ['2']) = none := by
  have h := c10_coord_parse_amended
  exact ⟨h.1 ['1'] ['5'] ['2'] (by decide) (by decide) (by decide) (by decide) (by decide),
    h.2.1 ['7'] ['2'] (by decide) (by decide)⟩

/-! ## Claim C4 -/

lemma getD_mem {γ : Type} {l : List γ} {k : ℕ} (hk : k < l.length) (d : γ) :
    l.getD k d ∈ l := by
  rw [List.getD_eq_getD_get?]
  cases hget : l.get? k with
  | none =>
    have := List.get?_eq_none.mp hget
    omega
  | some a => simpa using List.get?_mem hget

lemma timeAt_strict {F : List SimulationFrame}
    (hinc : List.Chain' (fun a b => a.time < b.time) F) :
    ∀ i j : ℕ, i < j → j < F.length →
      (F.getD i default).time < (F.getD j default).time := by
  intro i j hij hj
  have hp := (@List.chain'_iff_pairwise SimulationFrame (fun a b => a.time < b.time)
    ⟨fun _ _ _ hab hbc => lt_trans hab hbc⟩ F).mp hinc
  rw [List.pairwise_iff_get] at hp
  have hi : i < F.length := lt_trans hij hj
  rw [List.getD_eq_getElem _ _ hi, List.getD_eq_getElem _ _ hj]
  exact hp ⟨i, hi⟩ ⟨j, hj⟩ hij

lemma timeAt_mono {F : List SimulationFrame}
    (hinc : List.Chain' (fun a b => a.time < b.time) F) :
    ∀ i j : ℕ, i ≤ j → j < F.length →
      (F.getD i default).time ≤ (F.getD j default).time := by
  intro i j hij hj
  rcases Nat.lt_or_ge i j with h | h
  · exact le_of_lt (timeAt_strict hinc i j h hj)
  · have : i = j := le_antisymm hij h
    rw [this]

lemma findBrk_eq {F : List SimulationFrame}
    (hinc : List.Chain' (fun a b => a.time < b.time) F) :
    ∀ i : ℕ, i + 1 < F.length →
      ∀ t : ℚ, (F.getD i default).time < t → t ≤ (F.getD (i + 1) default).time →
      findBrk F t = some (F.getD i default, F.getD (i + 1) default) := by
  intro i
  induction i generalizing F with
  | zero =>
    intro hlen t h0 h1
    match F, hlen with
    | f0 :: f1 :: rest, _ =>
      unfold findBrk
      rw [if_pos ⟨le_of_lt h0, h1⟩]
      rfl
  | succ i ih =>
    intro hlen t h0 h1
    match F, hlen with
    | f0 :: f1 :: rest, hlen =>
      have htail : List.Chain' (fun a b => a.time < b.time) (f1 :: rest) :=
        (List.chain'_cons.mp hinc).2
      have hlt : ((f1 :: rest).getD 0 default).time ≤ ((f1 :: rest).getD i default).time :=
        timeAt_mono htail 0 i (Nat.zero_le i) (by simp at hlen ⊢; omega)
      have hnotb : ¬ (f0.time ≤ t ∧ t ≤ f1.time) := by
        rintro ⟨-, hb⟩
        have : ((f1 :: rest).getD i default).time < t := h0
        have hf1 : ((f1 :: rest).getD 0 default).time = f1.time := rfl
        rw [hf1] at hlt
        linarith
      unfold findBrk
      rw [if_neg hnotb]
      exact ih htail (by simpa using hlen) t h0 h1

lemma lerpRobots_length (bf af : SimulationFrame) (t : ℚ) :
    (lerpRobots bf af t).length = bf.robots.length := by
  simp [lerpRobots]

lemma lerpRobots_getD {bf af : SimulationFrame} {t : ℚ} {k : ℕ}
    (hk : k < bf.robots.length) (htt : bf.time < af.time) :
    (lerpRobots bf af t).getD k default =
      { id := (bf.robots.getD k default).id
        name := (bf.robots.getD k default).name
        type := (bf.robots.getD k default).type
        x := (bf.robots.getD k default).x
          + ((af.robots.getD k default).x - (bf.robots.getD k default).x)
            * ((t - bf.time) / (af.time - bf.time))
        y := (bf.robots.getD k default).y
          + ((af.robots.getD k default).y - (bf.robots.getD k default).y)
            * ((t - bf.time) / (af.time - bf.time)) } := by
  unfold lerpRobots
  rw [List.getD_eq_getD_get?, List.get?_map, List.get?_range (by simpa using hk)]
  dsimp only
  rw [if_pos (by linarith : af.time - bf.time > 0)]
  rfl

lemma interp_low {F : List SimulationFrame} (hne : F ≠ [])
    (hinc : List.Chain' (fun a b => a.time < b.time) F)
    (h0 : (F.headD default).time = 0) {t : ℚ} (ht : t ≤ 0) :
    interpolateRobots F t = (F.headD default).robots := by
  unfold interpolateRobots
  by_cases hmax : (F.getLastD default).time ≤ t
  · rw [if_pos hmax]
    cases F with
    | nil => cases hne rfl
    | cons f rest =>
      cases rest with
      | nil => rfl
      | cons f1 rest2 =>
        exfalso
        have hstrict := timeAt_strict hinc 0 ((f :: f1 :: rest2).length - 1)
          (by simp) (by simp)
        rw [getLastD_eq_getD] at hmax
        have hh : ((f :: f1 :: rest2).getD 0 default).time = 0 := h0
        linarith
  · rw [if_neg hmax, if_pos ht]

lemma interp_high {F : List SimulationFrame} {t : ℚ}
    (ht : (F.getLastD default).time ≤ t) :
    interpolateRobots F t = (F.getLastD default).robots := by
  unfold interpolateRobots
  rw [if_pos ht]

lemma interp_mid {F : List SimulationFrame} (hne : F ≠ [])
    (hinc : List.Chain' (fun a b => a.time < b.time) F)
    (h0 : (F.headD default).time = 0) {i : ℕ} {t : ℚ} (hilen : i + 1 < F.length)
    (hta : (F.getD i default).time < t) (htb : t ≤ (F.getD (i + 1) default).time)
    (htmax : t < (F.getLastD default).time) :
    interpolateRobots F t = lerpRobots (F.getD i default) (F.getD (i + 1) default) t := by
  unfold interpolateRobots
  rw [if_neg (by linarith : ¬ (F.getLastD default).time ≤ t)]
  have hh0 : (F.getD 0 default).time = 0 := by
    cases F with
    | nil => cases hne rfl
    | cons f rest => exact h0
  have hmono := timeAt_mono hinc 0 i (Nat.zero_le i) (by omega)
  rw [if_neg (by rw [hh0] at hmono; linarith : ¬ t ≤ 0)]
  rw [findBrk_eq hinc i hilen t hta htb]

/-- C4: `interpolateRobots` is the clamped piecewise-linear interpolant
of the frame sequence.  For frames with strictly increasing times
starting at 0 and uniform agent counts: below 0 it returns the first
frame's agents verbatim; at or past the last time it returns the last
frame's agents verbatim; strictly inside a bracketing interval it
returns, per agent index, the position linearly interpolated with
factor `(t - t0) / (t1 - t0)` and all other fields copied from the
earlier frame; and at the midpoint of a bracket it yields the
coordinate-wise average of the two bracketing positions. -/
theorem c4_interpolation_clamped_linear
    (F : List SimulationFrame) (n : ℕ)
    (hne : F ≠ [])
    (hinc : List.Chain' (fun a b => a.time < b.time) F)
    (h0 : (F.headD default).time = 0)
    (hlen : ∀ g ∈ F, g.robots.length = n) :
    (∀ t : ℚ, t ≤ 0 → interpolateRobots F t = (F.headD default).robots) ∧
    (∀ t : ℚ, (F.getLastD default).time ≤ t →
        interpolateRobots F t = (F.getLastD default).robots) ∧
    (∀ (i : ℕ) (t : ℚ), i + 1 < F.length →
        (F.getD i default).time < t → t ≤ (F.getD (i + 1) default).time →
        t < (F.getLastD default).time →
        (interpolateRobots F t).length = n ∧
        ∀ k, k < n →
          (interpolateRobots F t).getD k default =
            { id := ((F.getD i default).robots.getD k default).id
              name := ((F.getD i default).robots.getD k default).name
              type := ((F.getD i default).robots.getD k default).type
              x := ((F.getD i default).robots.getD k default).x
                + (((F.getD (i + 1) default).robots.getD k default).x
                    - ((F.getD i default).robots.getD k default).x)
                  * ((t - (F.getD i default).time)
                    / ((F.getD (i + 1) default).time - (F.getD i default).time))
              y := ((F.getD i default).robots.getD k default).y
                + (((F.getD (i + 1) default).robots.getD k default).y
                    - ((F.getD i default).robots.getD k default).y)
                  * ((t - (F.getD i default).time)
                    / ((F.getD (i + 1) default).time - (F.getD i default).time)) }) ∧
    (∀ (i k : ℕ), i + 1 < F.length → k < n →
        ((interpolateRobots F
            (((F.getD i default).time + (F.getD (i + 1) default).time) / 2)).getD k
            default).x
          = (((F.getD i default).robots.getD k default).x
            + ((F.getD (i + 1) default).robots.getD k default).x) / 2 ∧
        ((interpolateRobots F
            (((F.getD i default).time + (F.getD (i + 1) default).time) / 2)).getD k
            default).y
          = (((F.getD i default).robots.getD k default).y
            + ((F.getD (i + 1) default).robots.getD k default).y) / 2) := by
  have hkmem : ∀ i : ℕ, i < F.length → (F.getD i default).robots.length = n :=
    fun i hi => hlen _ (getD_mem hi default)
  have hbracket : ∀ (i : ℕ) (t : ℚ), i + 1 < F.length →
      (F.getD i default).time < t → t ≤ (F.getD (i + 1) default).time →
      t < (F.getLastD default).time →
      (interpolateRobots F t).length = n ∧
      ∀ k, k < n →
        (interpolateRobots F t).getD k default =
          { id := ((F.getD i default).robots.getD k default).id
            name := ((F.getD i default).robots.getD k default).name
            type := ((F.getD i default).robots.getD k default).type
            x := ((F.getD i default).robots.getD k default).x
              + (((F.getD (i + 1) default).robots.getD k default).x
                  - ((F.getD i default).robots.getD k default).x)
                * ((t - (F.getD i default).time)
                  / ((F.getD (i + 1) default).time - (F.getD i default).time))
            y := ((F.getD i default).robots.getD k default).y
              + (((F.getD (i + 1) default).robots.getD k default).y
                  - ((F.getD i default).robots.getD k default).y)
                * ((t - (F.getD i default).time)
                  / ((F.getD (i + 1) default).time - (F.getD i default).time)) } := by
    intro i t hilen hta htb htmax
    have hmid := interp_mid hne hinc h0 hilen hta htb htmax
    have htt : (F.getD i default).time < (F.getD (i + 1) default).time :=
      timeAt_strict hinc i (i + 1) (Nat.lt_succ_self i) hilen
    constructor
    · rw [hmid, lerpRobots_length]
      exact hkmem i (by omega)
    · intro k hk
      rw [hmid, lerpRobots_getD (by rw [hkmem i (by omega)]; exact hk) htt]
  refine ⟨fun t ht => interp_low hne hinc h0 ht, fun t ht => interp_high ht, hbracket, ?_⟩
  intro i k hilen hk
  have htt : (F.getD i default).time < (F.getD (i + 1) default).time :=
    timeAt_strict hinc i (i + 1) (Nat.lt_succ_self i) hilen
  have hmax1 : (F.getD (i + 1) default).time ≤ (F.getLastD default).time := by
    rw [getLastD_eq_getD]
    exact timeAt_mono hinc (i + 1) (F.length - 1) (by omega) (by omega)
  have hmidlt : ((F.getD i default).time + (F.getD (i + 1) default).time) / 2
      < (F.getLastD default).time := by
    have h2 : ((F.getD i default).time + (F.getD (i + 1) default).time) / 2
        < (F.getD (i + 1) default).time := by linarith
    linarith
  have h := (hbracket i (((F.getD i default).time + (F.getD (i + 1) default).time) / 2)
    hilen (by linarith) (by linarith) hmidlt).2 k hk
  have hd : (F.getD (i + 1) default).time - (F.getD i default).time ≠ 0 := by linarith
  have key : ∀ bx ax t0 t1 : ℚ, t1 - t0 ≠ 0 →
      bx + (ax - bx) * (((t0 + t1) / 2 - t0) / (t1 - t0)) = (bx + ax) / 2 := by
    intro bx ax t0 t1 hdd
    field_simp
    ring
  constructor
  · rw [h]
    exact key _ _ _ _ hd
  · rw [h]
    exact key _ _ _ _ hd

def wR0 : SimulationRobot := ⟨"r1", "Rover", "rover", 0, 0⟩

def wR1 : SimulationRobot := ⟨"r1", "Rover", "rover", 2, 4⟩

def wF : List SimulationFrame := [⟨0, [wR0]⟩, ⟨100, [wR1]⟩]

/-- Witness for `c4_interpolation_clamped_linear` on two concrete
frames: clamping below and above, and the midpoint average. -/
theorem c4_interpolation_clamped_linear_witness :
    interpolateRobots wF (-1) = [wR0] ∧
    interpolateRobots wF 200 = [wR1] ∧
    ((interpolateRobots wF 50).getD 0 default).x = 1 := by
  have hinc : List.Chain' (fun a b => a.time < b.time) wF := by
    unfold wF
    rw [List.chain'_cons]
    refine ⟨?_, List.chain'_singleton _⟩
    show (0 : ℚ) < 100
    norm_num
  have h := c4_interpolation_clamped_linear wF 1 (by simp [wF]) hinc rfl (by decide)
  refine ⟨?_, ?_, ?_⟩
  · have h1 := h.1 (-1) (by norm_num)
    rw [h1]
    rfl
  · have h2 := h.2.1 200 (show (100 : ℚ) ≤ 200 by norm_num)
    rw [h2]
    rfl
  · have hmid := (h.2.2.2 0 0 (by decide) (by decide)).1
    have ht : ((wF.getD 0 default).time + (wF.getD 1 default).time) / 2 = (50 : ℚ) := by
      show ((0 : ℚ) + 100) / 2 = 50
      norm_num
    rw [ht] at hmid
    rw [hmid]
    show ((0 : ℚ) + 2) / 2 = 1
    norm_num

end AgriSim
